import Mathlib

/-!
Shallow embedding of the roundsman orchestrator (src/roundsman.js) and proofs
about its session/turn state machine, stream framing, prompt assembly and
project lifecycle transitions.

Conventions of the embedding:
* JavaScript strings are Lean `String`s (UTF-16 code-unit slicing is modelled
  by character-based `String.take`; every string in the claims is ASCII).
* JavaScript numbers are modelled by `Rat` (the program performs no float
  arithmetic beyond accumulation and display formatting).
* Loosely-typed JavaScript values (stream events, raw marker JSON) are
  modelled by the inductive `JVal`; `null`/`undefined` are both `vNull`
  (the code distinguishes them nowhere that matters here).
* Impure inputs (`new Date().toISOString()`, `randomUUID()`, git results,
  `JSON.parse` of whole stdout) are passed as explicit parameters.
-/

set_option maxHeartbeats 1000000
set_option maxRecDepth 4096

/-! ## JavaScript value model -/

mutual
/-- A loosely-typed JavaScript value (arrays and objects carried by the
mutual types `JList` and `JFields` so that all recursion is structural). -/
inductive JVal where
  | vNull
  | vBool (b : Bool)
  | vNum (q : Rat)
  | vStr (s : String)
  | vArr (xs : JList)
  | vObj (fs : JFields)

/-- A JavaScript array payload. -/
inductive JList where
  | nil
  | cons (hd : JVal) (tl : JList)

/-- The own enumerable properties of a JavaScript object, in insertion order. -/
inductive JFields where
  | nil
  | cons (k : String) (v : JVal) (tl : JFields)
end

/-- Build a `JList` from a Lean list (literal helper). -/
def jlist : List JVal → JList
  | [] => .nil
  | v :: t => .cons v (jlist t)

/-- Build a `JFields` from a Lean association list (literal helper). -/
def jfields : List (String × JVal) → JFields
  | [] => .nil
  | (k, v) :: t => .cons k v (jfields t)

/-- JavaScript truthiness of a value. -/
def jsTruthy : JVal → Bool
  | .vNull => false
  | .vBool b => b
  | .vNum q => q != 0
  | .vStr s => s != ""
  | .vArr _ => true
  | .vObj _ => true

/-- `typeof v === "object" && v` (arrays included, null excluded). -/
def jsObjLike : JVal → Bool
  | .vArr _ => true
  | .vObj _ => true
  | _ => false

/-- Property access `obj[k]`: first binding of `k`, `none` for `undefined`. -/
def getField : JFields → String → Option JVal
  | .nil, _ => none
  | .cons k' v t, k => if k' = k then some v else getField t k

/-- The own properties of a value: objects expose their fields, everything
else (in this model) has none. -/
def fieldsOf : JVal → JFields
  | .vObj fs => fs
  | _ => .nil

/-! ## String helpers mirroring the JavaScript primitives -/

/-- JavaScript whitespace recognised by `String.prototype.trim`. -/
def isJsSpace (c : Char) : Bool :=
  c = ' ' || c = '\t' || c = '\n' || c = '\r' || c = '\x0b' || c = '\x0c'

/-- `String.prototype.trim` over a character list. -/
def jsTrimL (l : List Char) : List Char :=
  ((l.dropWhile isJsSpace).reverse.dropWhile isJsSpace).reverse

/-- `String.prototype.trim`. -/
def strTrim (s : String) : String := ⟨jsTrimL s.data⟩

/-- `s.slice(0, n)` for `n ≥ 0`. -/
def strTake (s : String) (n : Nat) : String := ⟨s.data.take n⟩

/-- `s.replace(/\n/g, " ")`. -/
def replaceNl (s : String) : String :=
  ⟨s.data.map (fun c => if c = '\n' then ' ' else c)⟩

/-- Substring occurrence over character lists (`String.prototype.includes`). -/
def hasSub (sub : List Char) : List Char → Bool
  | [] => List.isPrefixOf sub []
  | c :: cs => List.isPrefixOf sub (c :: cs) || hasSub sub cs

/-- `s.includes(pat)`. -/
def strIncludes (s pat : String) : Bool := hasSub pat.data s.data

/-- `s.startsWith(pre)`. -/
def strStarts (s pre : String) : Bool := List.isPrefixOf pre.data s.data

/-- `arr.slice(-n)` for `n ≥ 0` (note the JavaScript `slice(-0) = slice(0)`
corner: a zero bound keeps everything). -/
def jsSliceNeg {α : Type} (l : List α) (n : Nat) : List α :=
  if n = 0 then l else l.drop (l.length - n)

/-- `s.toLowerCase()` (character-wise, as in `String.toLower`). -/
def strLower (s : String) : String := ⟨s.data.map Char.toLower⟩

/-- Display form of a JavaScript number (only ever inspected up to equality
of whole rendered lines; decimal float formatting is not reproduced). -/
def jsNumStr (q : Rat) : String :=
  if q.den = 1 then toString q.num else toString q

/-! ## Incremental line framer (`consumeStreamChunk` / `consumeStreamTail`) -/

/-- Core of the `while (i >= 0)` loop of `consumeStreamChunk`: split a
character sequence at every newline, returning the complete (raw, untrimmed)
lines in order and the trailing remainder that stays in `state.lineBuf`. -/
def frame : List Char → List (List Char) × List Char
  | [] => ([], [])
  | c :: cs =>
    let r := frame cs
    if c = '\n' then ([] :: r.1, r.2)
    else
      match r.1 with
      | [] => ([], c :: r.2)
      | l :: ls => ((c :: l) :: ls, r.2)

/-- Per-line post-processing of the loop body: `line.trim()` then
`if (line) onLine(line)`. -/
def emitLines (ls : List (List Char)) : List (List Char) :=
  (ls.map jsTrimL).filter (fun l => l ≠ [])

/-- `consumeStreamChunk(chunk, state, onLine)`: lines handed to `onLine`
(in order) and the new `state.lineBuf`. -/
def consumeStreamChunk (buf chunk : List Char) : List (List Char) × List Char :=
  let r := frame (buf ++ chunk)
  (emitLines r.1, r.2)

/-- `consumeStreamTail(state, onLine)`: the final flush of the buffer. -/
def consumeStreamTail (buf : List Char) : List (List Char) :=
  let l := jsTrimL buf
  if l = [] then [] else [l]

/-- Feed a sequence of chunks through `consumeStreamChunk`, threading the
line buffer, collecting every line handed to `onLine`. -/
def runChunks : List Char → List (List Char) → List (List Char) × List Char
  | buf, [] => ([], buf)
  | buf, c :: cs =>
    let r := consumeStreamChunk buf c
    let rest := runChunks r.2 cs
    (r.1 ++ rest.1, rest.2)

/-- All lines emitted by chunked consumption followed by the tail flush. -/
def processStream (chunks : List (List Char)) : List (List Char) :=
  let r := runChunks [] chunks
  r.1 ++ consumeStreamTail r.2

/-- Reference splitter: all newline-separated segments of the whole input,
including the trailing partial segment. -/
def splitOnNl : List Char → List (List Char)
  | [] => [[]]
  | c :: cs =>
    if c = '\n' then [] :: splitOnNl cs
    else
      match splitOnNl cs with
      | [] => [[c]]
      | l :: ls => (c :: l) :: ls

/-- The oracle of the framing claim: concatenate everything, split on
newlines, trim, keep the non-empty lines. -/
def streamOracle (s : List Char) : List (List Char) := emitLines (splitOnNl s)

/-! ## Event text extraction and classification (`extractText`, `isInputWaitEvent`) -/

/-- `typeof fs[k] === "string" && fs[k]` — a non-empty string field. -/
def strFieldTruthy (fs : JFields) (k : String) : Option String :=
  match getField fs k with
  | some (.vStr s) => if s = "" then none else some s
  | _ => none

/-- A field whose value is truthy (`if (v.delta) ...`). -/
def fieldTruthy (fs : JFields) (k : String) : Option JVal :=
  match getField fs k with
  | some v => if jsTruthy v then some v else none
  | none => none

mutual
/-- `extractText(v)` of the source: pull human-readable text out of a
loosely-structured stream event value. -/
def extractText : JVal → String
  | .vNull => ""
  | .vBool b => cond b "true" ""
  | .vNum q => if q = 0 then "" else jsNumStr q
  | .vStr s => s
  | .vArr xs => String.intercalate " " ((extractTexts xs).filter (fun s => s ≠ ""))
  | .vObj fs =>
    match strFieldTruthy fs "text" with
    | some s => s
    | none =>
    match strFieldTruthy fs "output" with
    | some s => s
    | none =>
    match strFieldTruthy fs "result" with
    | some s => s
    | none =>
    match strFieldTruthy fs "message" with
    | some s => s
    | none =>
    match extractFieldText fs "delta" with
    | some s => s
    | none =>
    match extractFieldText fs "content" with
    | some s => s
    | none => ""

/-- `v.map(extractText)` over an array payload. -/
def extractTexts : JList → List String
  | .nil => []
  | .cons v t => extractText v :: extractTexts t

/-- `if (v[k]) return extractText(v[k])`, walking the field list so the
recursion stays structural: `some` exactly when the field exists and is
truthy, carrying the extracted text of its value. -/
def extractFieldText : JFields → String → Option String
  | .nil, _ => none
  | .cons k' v t, k =>
    if k' = k then (if jsTruthy v then some (extractText v) else none)
    else extractFieldText t k
end

/-- `unwrapStreamEvent(evt)`: `none` models the `null` return. -/
def unwrapStreamEvent : JVal → Option JVal
  | .vArr xs => some (.vArr xs)
  | .vObj fs =>
    match getField fs "event" with
    | some w => if jsObjLike w then some w else some (.vObj fs)
    | none => some (.vObj fs)
  | _ => none

/-- `typeof e.type === "string" ? e.type.toLowerCase() : ""`. -/
def eventTypeName (e : JVal) : String :=
  match e with
  | .vObj fs =>
    match getField fs "type" with
    | some (.vStr s) => strLower s
    | _ => ""
  | _ => ""

/-- The event-kind test of `isInputWaitEvent`: the lowered type name
contains "input" together with one of "wait" / "request" / "required". -/
def typeSignalsWait (e : JVal) : Bool :=
  let t := eventTypeName e
  strIncludes t "input" && (strIncludes t "wait" || strIncludes t "request" || strIncludes t "required")

/-- The fixed set of waiting-for-user-input phrasings, matched by substring
against an already-lowercased text. -/
def waitPhraseIn (txt : String) : Bool :=
  strIncludes txt "waiting for user input"
    || strIncludes txt "awaiting user input"
    || strIncludes txt "user input required"

/-- The extracted-text test of `isInputWaitEvent`: the lowered text is
non-empty and contains one of the fixed waiting-for-user-input phrasings. -/
def textSignalsWait (e : JVal) : Bool :=
  let txt := strLower (extractText e)
  if txt = "" then false else waitPhraseIn txt

/-- `isInputWaitEvent(evt)` (the early returns of the source flatten to a
disjunction of the two tests). -/
def isInputWaitEvent (evt : JVal) : Bool :=
  match unwrapStreamEvent evt with
  | none => false
  | some e => typeSignalsWait e || textSignalsWait e

/-! ## Session / TurnRecord model and `normalizeSession` -/

/-- A persisted turn record (`at` is spelled `at_`: `at` is reserved). -/
structure TurnRecord where
  at_ : String
  result : String
  cost : Rat
  turns : Rat
  input : String
deriving DecidableEq, Repr

/-- The persisted per-project session block. -/
structure Session where
  sessionId : String
  turn : Nat
  summary : String
  history : List TurnRecord
deriving DecidableEq, Repr

/-- One history entry of `normalizeSession`'s `.map`: each field defaulted
unless it has the right type (`now` stands in for `nowIso()`). -/
def recordOfJ (now : String) (h : JVal) : TurnRecord :=
  let fs := fieldsOf h
  { at_ := match getField fs "at" with | some (.vStr s) => s | _ => now
    result := match getField fs "result" with | some (.vStr s) => s | _ => ""
    cost := match getField fs "cost" with | some (.vNum q) => q | _ => 0
    turns := match getField fs "turns" with | some (.vNum q) => q | _ => 0
    input := match getField fs "input" with | some (.vStr s) => s | _ => "" }

/-- `normalizeSession`'s `.filter((h) => h && typeof h === "object").map(...)`. -/
def normalizeHistory (now : String) : JList → List TurnRecord
  | .nil => []
  | .cons h t =>
    if jsObjLike h then recordOfJ now h :: normalizeHistory now t
    else normalizeHistory now t

/-- `normalizeSession(v, maxHistory)` of the source. -/
def normalizeSession (now : String) (maxHistory : Nat) (v : JVal) : Session :=
  let fs := match v with | .vObj fs => fs | _ => .nil
  { sessionId := match getField fs "sessionId" with | some (.vStr s) => s | _ => ""
    turn :=
      match getField fs "turn" with
      | some (.vNum q) => if q.den = 1 ∧ 0 ≤ q then q.num.toNat else 0
      | _ => 0
    summary := match getField fs "summary" with | some (.vStr s) => s | _ => ""
    history :=
      jsSliceNeg
        (normalizeHistory now
          (match getField fs "history" with | some (.vArr xs) => xs | _ => .nil))
        maxHistory }

/-- `hasSuccessfulTurn(config)` restricted to its session argument: some
history entry has a non-empty result that does not carry the error prefix. -/
def hasSuccessfulTurnS (s : Session) : Bool :=
  s.history.any (fun h => h.result ≠ "" && !(strStarts h.result "error:"))

/-! ## Project marker config, `stringifyMeta` and `buildPrompt` -/

/-- The three lifecycle hook slots (`normalizeHooks` output). -/
structure Hooks where
  beforeVisit : String
  afterVisit : String
  afterWatchSuccess : String
deriving DecidableEq, Repr

/-- A normalized project marker (`normalizeConfig` output): the reserved
fields, typed, plus the unknown top-level keys kept by the object spread
(`extra`, whose keys are by construction not reserved names, though no
theorem relies on that). -/
structure Config where
  lock : Bool
  prompt : String
  todos : List String
  doing : List String
  done : List String
  macros : List (String × String)
  watch : String
  hooks : Hooks
  session : Session
  extra : List (String × JVal)

/-- `KNOWN_KEYS` of the source. -/
def knownKeysList : List String :=
  ["prompt", "todos", "doing", "lock", "done", "session", "macros", "watch", "hooks"]

mutual
/-- `String(v)` on a JavaScript value. -/
def jsToString : JVal → String
  | .vNull => "null"
  | .vBool b => cond b "true" "false"
  | .vNum q => jsNumStr q
  | .vStr s => s
  | .vArr xs => String.intercalate "," (jsArrElemStrs xs)
  | .vObj _ => "[object Object]"

/-- `Array.prototype.join` element stringification (null/undefined → ""). -/
def jsArrElemStrs : JList → List String
  | .nil => []
  | .cons .vNull t => "" :: jsArrElemStrs t
  | .cons v t => jsToString v :: jsArrElemStrs t
end

/-- Minimal JSON string escaping (`\u` escapes of other control characters
are not reproduced; no inspected string needs them). -/
def escapeJson (s : String) : String :=
  ⟨s.data.flatMap (fun c =>
    if c = '"' then ['\\', '"']
    else if c = '\\' then ['\\', '\\']
    else if c = '\n' then ['\\', 'n']
    else if c = '\r' then ['\\', 'r']
    else if c = '\t' then ['\\', 't']
    else [c])⟩

mutual
/-- `JSON.stringify(v)` (compact). -/
def jsonStringify : JVal → String
  | .vNull => "null"
  | .vBool b => cond b "true" "false"
  | .vNum q => jsNumStr q
  | .vStr s => "\"" ++ escapeJson s ++ "\""
  | .vArr xs => "[" ++ String.intercalate "," (jsonElems xs) ++ "]"
  | .vObj fs => "\x7b" ++ String.intercalate "," (jsonFieldStrs fs) ++ "\x7d"

/-- Serialized array elements. -/
def jsonElems : JList → List String
  | .nil => []
  | .cons v t => jsonStringify v :: jsonElems t

/-- Serialized object properties. -/
def jsonFieldStrs : JFields → List String
  | .nil => []
  | .cons k v t => ("\"" ++ escapeJson k ++ "\":" ++ jsonStringify v) :: jsonFieldStrs t
end

/-- `stringifyMeta(v)` of the source. -/
def stringifyMeta : JVal → String
  | .vArr xs => String.intercalate ", " (jsArrElemStrs xs)
  | .vObj fs => jsonStringify (.vObj fs)
  | v => jsToString v

/-- JSON encoding of a turn record as persisted in the marker. -/
def turnRecordJ (h : TurnRecord) : JVal :=
  .vObj (jfields
    [("at", .vStr h.at_), ("result", .vStr h.result), ("cost", .vNum h.cost),
     ("turns", .vNum h.turns), ("input", .vStr h.input)])

/-- JSON encoding of the session block as persisted in the marker. -/
def sessionJ (s : Session) : JVal :=
  .vObj (jfields
    [("sessionId", .vStr s.sessionId), ("turn", .vNum (s.turn : Rat)),
     ("summary", .vStr s.summary), ("history", .vArr (jlist (s.history.map turnRecordJ)))])

/-- JSON encoding of the hooks block. -/
def hooksJ (h : Hooks) : JVal :=
  .vObj (jfields
    [("beforeVisit", .vStr h.beforeVisit), ("afterVisit", .vStr h.afterVisit),
     ("afterWatchSuccess", .vStr h.afterWatchSuccess)])

/-- `Object.entries(config)`: the unknown keys together with the reserved
fields (the JavaScript insertion order interleaves the two groups; nothing
proved here depends on entry order). -/
def configEntries (c : Config) : List (String × JVal) :=
  c.extra ++
    [("lock", .vBool c.lock), ("prompt", .vStr c.prompt),
     ("todos", .vArr (jlist (c.todos.map JVal.vStr))),
     ("doing", .vArr (jlist (c.doing.map JVal.vStr))),
     ("done", .vArr (jlist (c.done.map JVal.vStr))),
     ("macros", .vObj (jfields (c.macros.map (fun kv => (kv.1, JVal.vStr kv.2))))),
     ("watch", .vStr c.watch), ("hooks", hooksJ c.hooks), ("session", sessionJ c.session)]

/-- The `meta` computation of `buildPrompt` and `displayProject`:
`Object.entries(config).filter(([k]) => !KNOWN_KEYS.has(k))`. -/
def configMeta (c : Config) : List (String × JVal) :=
  (configEntries c).filter (fun kv => !(knownKeysList.contains kv.1))

/-- The `parts` array assembled by `buildPrompt(config, userInput)`. -/
def buildPromptParts (c : Config) (userInput : String) : List String :=
  ["You are an agent managed by roundsman, a multi-project orchestrator.", ""]
  ++ (if c.prompt ≠ "" then ["Project context: " ++ c.prompt, ""] else [])
  ++ ["Todos: " ++ (if c.todos ≠ [] then String.intercalate " | " c.todos else "(none)"),
      "Doing: " ++ (if c.doing ≠ [] then String.intercalate " | " c.doing else "(none)"),
      "Done: " ++ (if c.done ≠ [] then String.intercalate " | " c.done else "(none)")]
  ++ (if c.session.summary ≠ "" then ["", "Session so far: " ++ c.session.summary] else [])
  ++ (let meta := configMeta c
      if meta.length ≠ 0 then
        ["", "Metadata:"] ++ meta.map (fun kv => "  " ++ kv.1 ++ ": " ++ stringifyMeta kv.2)
      else [])
  ++ (if userInput ≠ "" then ["", "User instruction: " ++ userInput] else [])
  ++ ["", "Work on the task. When done, provide a concise summary of what you did.",
      "Update the project marker file todos/doing/done arrays if the task state changed."]

/-- `buildPrompt(config, userInput)`: the parts joined with newlines. -/
def buildPrompt (c : Config) (userInput : String) : String :=
  String.intercalate "\n" (buildPromptParts c userInput)

/-- `hasSuccessfulTurn(config)` of the source. -/
def hasSuccessfulTurn (c : Config) : Bool := hasSuccessfulTurnS c.session

/-- The argv assembled by `spawnAgent` for the agent binary (prompt last;
`--resume` exactly when a successful prior turn exists, `--session-id`
otherwise). -/
def spawnAgentArgs (permissionMode defaultModel : String) (c : Config)
    (modelOverride userInput : String) : List String :=
  let model := if modelOverride ≠ "" then modelOverride else defaultModel
  ["-p", "--output-format", "stream-json", "--verbose", "--permission-mode", permissionMode]
  ++ (if model ≠ "" then ["--model", model] else [])
  ++ (if hasSuccessfulTurn c then ["--resume", c.session.sessionId]
      else ["--session-id", c.session.sessionId])
  ++ [buildPrompt c userInput]

/-! ## Agent turn completion (`spawnAgent`'s close and error handlers) -/

/-- The incremental accumulator (`stream` in `spawnAgent`) maintained by
`applyStreamEvent`. -/
structure StreamAcc where
  result : String
  cost : Rat
  turns : Rat
  sessionId : String
  streamSeen : Bool
deriving DecidableEq, Repr

/-- The fresh accumulator created when the process is spawned. -/
def streamAccInit : StreamAcc :=
  { result := "", cost := 0, turns := 0, sessionId := "", streamSeen := false }

/-- `applyStreamEvent(state, evt)` of the source: last value observed wins. -/
def applyStreamEvent (s : StreamAcc) (evt : JVal) : StreamAcc :=
  match unwrapStreamEvent evt with
  | none => s
  | some e =>
    let fs := fieldsOf e
    let s := match getField fs "result" with | some (.vStr r) => { s with result := r } | _ => s
    let s := match getField fs "total_cost_usd" with | some (.vNum q) => { s with cost := q } | _ => s
    let s := match getField fs "num_turns" with | some (.vNum q) => { s with turns := q } | _ => s
    match getField fs "session_id" with
    | some (.vStr sid) => if sid ≠ "" then { s with sessionId := sid } else s
    | _ => s

/-- The whole-stdout fallback `JSON.parse(stdout.trim())` outcome: `none`
for a parse failure, otherwise the four fields the handler reads, already
coerced the way the handler does (`json.result || ""` and friends). -/
structure WholeResult where
  result : String
  cost : Rat
  turns : Rat
  sessionId : String
deriving DecidableEq, Repr

/-- Everything the `proc.on("close")` handler reads besides the session:
exit code/signal, accumulated raw stdio, the stream accumulator after the
final `consumeStreamTail` flush, the fallback whole-output parse, and the
ambient impure inputs. -/
structure CloseCtx where
  code : Option Int
  signal : Option String
  stdout : String
  stderr : String
  acc : StreamAcc
  whole : Option WholeResult
  userInput : String
  now : String
  maxHistory : Nat

/-- `${signal ? ` (${signal})` : ""}`. -/
def signalSuffix : Option String → String
  | some s => " (" ++ s ++ ")"
  | none => ""

/-- `${code}` (the exit code may be `null`). -/
def codeStr : Option Int → String
  | some n => toString n
  | none => "null"

/-- The `result`/`cost`/`turns`/`sessionId` computation of the close
handler's real-completion branch. -/
def closeResultFields (ctx : CloseCtx) (sess : Session) : String × Rat × Rat × String :=
  if ctx.code = some 0 ∧ strTrim ctx.stdout ≠ "" then
    let s1 : String × Rat × Rat × String :=
      if ctx.acc.streamSeen then
        (ctx.acc.result, ctx.acc.cost, ctx.acc.turns,
         if ctx.acc.sessionId ≠ "" then ctx.acc.sessionId else sess.sessionId)
      else ("", 0, 0, sess.sessionId)
    let (r, c, t, sid) := s1
    if r = "" then
      match ctx.whole with
      | some j =>
        (j.result, if c = 0 then j.cost else c, if t = 0 then j.turns else t,
         if j.sessionId ≠ "" then j.sessionId else sid)
      | none => (strTake (strTrim ctx.stdout) 2000, c, t, sid)
    else (r, c, t, sid)
  else
    let e := strTake (strTrim ctx.stderr) 500
    let o := strTake (strTrim ctx.stdout) 500
    let d := if e ≠ "" then e else o
    ("error: exit " ++ codeStr ctx.code ++ " — " ++ d, 0, 0, sess.sessionId)

/-- What the close handler resolves with and leaves behind. -/
structure CloseOut where
  result : String
  cost : Rat
  stopped : Bool
  session : Session
  stopReasonAfter : String
deriving Repr

/-- The `proc.on("close")` handler of `spawnAgent`, acting on the session
(`stopReason` is the value of `project.stopReason` at exit time; the
reload/persist of todos/doing/done/prompt and the checkpoint side effects
touch no session field and are outside this function). -/
def agentClose (stopReason : String) (ctx : CloseCtx) (sess : Session) : CloseOut :=
  if stopReason ≠ "" then
    { result := "stopped: " ++ stopReason ++ signalSuffix ctx.signal
      cost := 0, stopped := true, session := sess, stopReasonAfter := "" }
  else
    let (result, cost, turns, sid) := closeResultFields ctx sess
    let summary' :=
      if result ≠ "" ∧ strStarts result "error:" = false then strTake result 500
      else sess.summary
    let rec0 : TurnRecord :=
      { at_ := ctx.now, result := strTake result 2000, cost := cost, turns := turns,
        input := ctx.userInput }
    { result := result, cost := cost, stopped := false
      session :=
        { sessionId := sid, turn := sess.turn + 1, summary := summary'
          history := jsSliceNeg (sess.history ++ [rec0]) ctx.maxHistory }
      stopReasonAfter := "" }

/-- The `proc.on("error")` handler: `onDone(project, message, 0)` with the
default (non-stopped) options — resolves immediately, touches no session. -/
def spawnErrorResolve (errMsg : String) : String × Rat × Bool :=
  ("spawn error: " ++ errMsg, 0, false)

/-- The close context observed when the binary never spawned: Node (>= 15,
the README requires 18) still emits `close` after `error`, with empty stdio
and a non-zero or null exit code, and no stop reason was pre-recorded. -/
def spawnFailCtx (code : Option Int) (userInput now : String) (maxHistory : Nat) : CloseCtx :=
  { code := code, signal := none, stdout := "", stderr := "", acc := streamAccInit,
    whole := none, userInput := userInput, now := now, maxHistory := maxHistory }

/-! ## Project entity and lifecycle transitions -/

/-- The closed project state set. -/
inductive ProjState where
  | idle
  | working
  | watching
  | snoozed
  | dropped
deriving DecidableEq, Repr

/-- An active `/loop` descriptor. -/
structure LoopState where
  max : Nat
  goal : String
  done : Nat
deriving DecidableEq, Repr

/-- The runtime project entity (`setupProject` result). Process handles are
modelled by their non-nullness (`hasProc`/`hasWatchProc`); projects are
identified in the rotation queue by `id` (object identity in the source). -/
structure Project where
  id : Nat
  state : ProjState
  session : Session
  loop : Option LoopState
  snoozeUntil : Int
  stopReason : String
  watchStopReason : String
  holdStream : Bool
  pendingStream : List String
  activity : List (String × String)
  hasProc : Bool
  hasWatchProc : Bool

/-- `pushActivity(project, msg)`: timestamped append, capacity 400 with
oldest-first eviction (`MAX_ACTIVITY`). -/
def pushActivity (p : Project) (now msg : String) : Project :=
  if msg = "" then p
  else
    let act := p.activity ++ [(now, msg)]
    { p with activity := if act.length > 400 then jsSliceNeg act 400 else act }

/-- `pushBufferedProgress(project, msg)`: pending-buffer append, capacity
200 with oldest-first eviction. -/
def pushBufferedProgress (p : Project) (msg : String) : Project :=
  if msg = "" then p
  else
    let ps := p.pendingStream ++ [msg]
    { p with pendingStream := if ps.length > 200 then jsSliceNeg ps 200 else ps }

/-- `emitProgress(project, msg)`: the boolean reports whether the line was
printed live (`agentLog`) rather than held. -/
def emitProgress (p : Project) (now msg : String) : Project × Bool :=
  if msg = "" then (p, false)
  else
    let p1 := pushActivity p now msg
    if p1.holdStream then (pushBufferedProgress p1 msg, false)
    else (p1, true)

/-- `stopWatcher(project, why)` of the source. -/
def stopWatcher (p : Project) (why : String) : Project × Bool :=
  if p.hasWatchProc then
    ({ p with
        watchStopReason := (if why = "" then "stopped" else why),
        hasWatchProc := false }, true)
  else (p, false)

/-- `killProject(project, queue, why)` of the source: kill agent and/or
watcher process; on success return to idle, clear the snooze timer and
re-queue without duplication. -/
def killProject (p : Project) (queue : List Nat) (why : String) :
    Project × List Nat × Bool :=
  let (p1, k1) :=
    if p.hasProc then
      ({ p with
          loop := none,
          stopReason := (if why = "" then "killed" else why),
          hasProc := false }, true)
    else (p, false)
  let (p2, k2) := stopWatcher p1 (if why = "" then "killed" else why)
  if k1 || k2 then
    ({ p2 with state := ProjState.idle, snoozeUntil := 0 },
     if p2.id ∈ queue then queue else queue ++ [p2.id], true)
  else (p2, queue, false)

/-- `resetSession`'s new session block (`freshId` stands for `randomUUID()`;
the pre-reset checkpoint and the save are external side effects). -/
def resetSession (freshId : String) : Session :=
  { sessionId := freshId, turn := 0, summary := "", history := [] }

/-- The session mutation of `revertLastTurn` (`lastCommit` is the trimmed
`git log --oneline -1` output, `none` when that fails or is empty;
`revertOk` is the outcome of `git revert HEAD --no-edit`). Returns the
error message (`null` on success) and the resulting session. -/
def revertSession (lastCommit : Option String) (revertOk : Bool) (s : Session) :
    Option String × Session :=
  match lastCommit with
  | none => (some "no commits to revert", s)
  | some msg =>
    if ¬(strIncludes msg "roundsman turn" || strIncludes msg "roundsman pre-turn") then
      (some ("last commit is not a roundsman turn: " ++ msg), s)
    else if ¬revertOk then
      (some "revert failed", s)
    else if s.history.length ≠ 0 then
      let hist' := s.history.dropLast
      let summary' := match hist'.getLast? with | some prev => strTake prev.result 500 | none => ""
      (none, { s with history := hist', turn := s.turn - 1, summary := summary' })
    else (none, s)

/-! ## `onAgentDone` (the REPL completion callback) -/

/-- What `onAgentDone` produces: the mutated project, rotation queue and
cost accumulator, plus the loop goal it immediately re-dispatches
(`spawnAgent(project, loop.goal, ...)`) when the loop continues. -/
structure DoneOut where
  proj : Project
  queue : List Nat
  totalCost : Rat
  respawn : Option String

/-- Cost display `cost.toFixed(4)` (decimal float formatting abstracted to
the scaled integer part; the string is never inspected by a theorem). -/
def ratFixed4 (q : Rat) : String := toString (q * 10000).floor

/-- Queue re-admission plus wake: `if (!queue.includes(project)) queue.push(project)`. -/
def requeueDone (p : Project) (queue : List Nat) (tc : Rat) : DoneOut :=
  { proj := p, queue := if p.id ∈ queue then queue else queue ++ [p.id],
    totalCost := tc, respawn := none }

/-- `onAgentDone(project, result, cost, opts)` of the source. -/
def onAgentDone (p : Project) (result : String) (cost : Rat) (stopped : Bool)
    (queue : List Nat) (totalCost : Rat) (now : String) (previewChars : Nat) : DoneOut :=
  let tc := totalCost + cost
  let p1 := { p with state := ProjState.idle, hasProc := false }
  let preview := replaceNl (strTake result previewChars)
  if stopped then requeueDone (pushActivity p1 now ("[stopped] " ++ result)) queue tc
  else
    let p2 :=
      pushActivity p1 now
        ("[done] $" ++ ratFixed4 cost ++ " " ++ (if preview ≠ "" then preview else "(empty result)"))
    match p2.loop with
    | some l =>
      let l1 : LoopState := { l with done := l.done + 1 }
      if strStarts result "error:" then requeueDone { p2 with loop := none } queue tc
      else if l1.done < l1.max then
        { proj := { p2 with loop := some l1 }, queue := queue, totalCost := tc,
          respawn := some l1.goal }
      else requeueDone { p2 with loop := none } queue tc
    | none => requeueDone p2 queue tc

/-! ## Specification-side abbreviations and concrete fixtures -/

/-- The raw `history` field read by `normalizeSession` (before filtering). -/
def rawHistory (v : JVal) : JList :=
  match v with
  | .vObj fs => (match getField fs "history" with | some (.vArr xs) => xs | _ => .nil)
  | _ => .nil

/-- The agent argv up to (excluding) the continuation flags and prompt. -/
def spawnAgentBase (permissionMode defaultModel modelOverride : String) : List String :=
  let model := if modelOverride ≠ "" then modelOverride else defaultModel
  ["-p", "--output-format", "stream-json", "--verbose", "--permission-mode", permissionMode]
  ++ (if model ≠ "" then ["--model", model] else [])

/-- A session with one successful completed turn. -/
def sessionSample : Session :=
  { sessionId := "sid-0", turn := 1, summary := "ok",
    history := [{ at_ := "t1", result := "ok", cost := 0, turns := 1, input := "go" }] }

/-- A close context for a process that was killed externally. -/
def closeCtxSample : CloseCtx :=
  { code := none, signal := none, stdout := "", stderr := "", acc := streamAccInit,
    whole := none, userInput := "go", now := "t2", maxHistory := 20 }

/-- Empty hooks block. -/
def hooksNone : Hooks := { beforeVisit := "", afterVisit := "", afterWatchSuccess := "" }

/-- A project config whose only history entry has an empty result text
(a real turn that produced no usable output). -/
def cfgEmptyResult : Config :=
  { lock := false, prompt := "", todos := [], doing := [], done := [], macros := [],
    watch := "", hooks := hooksNone,
    session := { sessionId := "sid-1", turn := 1, summary := "",
                 history := [{ at_ := "t", result := "", cost := 0, turns := 0, input := "x" }] },
    extra := [] }

/-- A project config with one successful prior turn. -/
def cfgOkResult : Config :=
  { lock := false, prompt := "", todos := [], doing := [], done := [], macros := [],
    watch := "", hooks := hooksNone,
    session := { sessionId := "sid-2", turn := 1, summary := "ok",
                 history := [{ at_ := "t", result := "ok", cost := 0, turns := 1, input := "x" }] },
    extra := [] }

/-- A project config carrying one unknown metadata key. -/
def cfgWithMeta : Config :=
  { lock := false, prompt := "", todos := [], doing := [], done := [], macros := [],
    watch := "", hooks := hooksNone,
    session := { sessionId := "", turn := 0, summary := "", history := [] },
    extra := [("team", .vStr "infra")] }

/-- A project fixture for the lifecycle theorems. -/
def projSample : Project :=
  { id := 7, state := ProjState.working, session := sessionSample, loop := none,
    snoozeUntil := 5, stopReason := "", watchStopReason := "", holdStream := true,
    pendingStream := [], activity := [], hasProc := true, hasWatchProc := false }
/-! ## Helper lemmas: the line framer -/

theorem frame_no_nl : ∀ (l : List Char), '\n' ∉ l → frame l = ([], l) := by
  intro l h
  induction l with
  | nil => rfl
  | cons c cs ih =>
    have hc : ¬(c = '\n') := fun e => h (e ▸ List.mem_cons_self c cs)
    have hcs : '\n' ∉ cs := fun m => h (List.mem_cons_of_mem c m)
    simp [frame, ih hcs, hc]

theorem frame_rest_no_nl : ∀ (l : List Char), '\n' ∉ (frame l).2 := by
  intro l
  induction l with
  | nil => simp [frame]
  | cons c cs ih =>
    by_cases hc : c = '\n'
    · simpa [frame, hc] using ih
    · simp only [frame]
      cases h : (frame cs).1 with
      | nil =>
        simp only [h, if_neg hc]
        intro hm
        rcases List.mem_cons.mp hm with he | hm2
        · exact hc he.symm
        · exact ih hm2
      | cons l0 ls => simpa [h, hc] using ih

theorem frame_append : ∀ (a b : List Char),
    frame (a ++ b) =
      ((frame a).1 ++ (frame ((frame a).2 ++ b)).1, (frame ((frame a).2 ++ b)).2) := by
  intro a b
  induction a with
  | nil => simp [frame]
  | cons c a' ih =>
    by_cases hc : c = '\n'
    · subst hc
      simp [frame, ih]
    · cases h : (frame a').1 with
      | nil =>
        cases hX : (frame ((frame a').2 ++ b)).1 with
        | nil =>
          simp [frame, ih, h, hc, hX]
        | cons x xs =>
          simp [frame, ih, h, hc, hX]
      | cons l ls =>
        simp [frame, ih, h, hc]

theorem emitLines_append (xs ys : List (List Char)) :
    emitLines (xs ++ ys) = emitLines xs ++ emitLines ys := by
  simp [emitLines]

theorem emitLines_single (r : List Char) : emitLines [r] = consumeStreamTail r := by
  by_cases h : jsTrimL r = [] <;> simp [emitLines, consumeStreamTail, h]

theorem splitOnNl_eq_frame : ∀ (l : List Char),
    splitOnNl l = (frame l).1 ++ [(frame l).2] := by
  intro l
  induction l with
  | nil => rfl
  | cons c cs ih =>
    by_cases hc : c = '\n'
    · simp [splitOnNl, frame, hc, ih]
    · cases h : (frame cs).1 with
      | nil =>
        rw [h] at ih
        simp only [List.nil_append] at ih
        simp [splitOnNl, frame, hc, ih, h]
      | cons l0 ls =>
        rw [h] at ih
        simp [splitOnNl, frame, hc, ih, h]

theorem runChunks_spec : ∀ (chunks : List (List Char)) (buf : List Char), '\n' ∉ buf →
    (runChunks buf chunks).1 ++ consumeStreamTail (runChunks buf chunks).2 =
      emitLines (frame (buf ++ chunks.flatten)).1
        ++ consumeStreamTail (frame (buf ++ chunks.flatten)).2 := by
  intro chunks
  induction chunks with
  | nil =>
    intro buf h
    simp [runChunks, frame_no_nl buf h, emitLines]
  | cons c cs ih =>
    intro buf h
    have hR : '\n' ∉ (frame (buf ++ c)).2 := frame_rest_no_nl (buf ++ c)
    have hIH := ih (frame (buf ++ c)).2 hR
    have hAssoc : buf ++ (c :: cs).flatten = (buf ++ c) ++ cs.flatten := by
      simp [List.flatten_cons]
    rw [hAssoc, frame_append (buf ++ c) cs.flatten]
    simp only [runChunks, consumeStreamChunk, emitLines_append, List.append_assoc]
    rw [hIH]

/-- C4: the incremental line framer is exact — for every chunk sequence,
feeding the chunks through `consumeStreamChunk` and flushing with
`consumeStreamTail` emits exactly the non-empty trimmed lines of the
concatenated input split on newlines, in order; in particular the two-chunk
JSON example frames into exactly the two records, never split or
duplicated. -/
theorem stream_framer_exact :
    (∀ chunks : List (List Char), processStream chunks = streamOracle chunks.flatten)
    ∧ processStream ["\x7b\"a\":1\x7d\n\x7b\"b\":".data, "2\x7d\n".data]
        = ["\x7b\"a\":1\x7d".data, "\x7b\"b\":2\x7d".data] := by
  constructor
  · intro chunks
    have h := runChunks_spec chunks [] (by simp)
    simp only [List.nil_append] at h
    rw [processStream, streamOracle, splitOnNl_eq_frame, emitLines_append, emitLines_single]
    exact h
  · decide

/-! ## Helper lemmas: substring matching -/

theorem hasSub_ne_nil {sub l : List Char} (h : hasSub sub l = true) (hs : sub ≠ []) :
    l ≠ [] := by
  cases l with
  | nil =>
    cases sub with
    | nil => exact absurd rfl hs
    | cons c cs => simp [hasSub, List.isPrefixOf] at h
  | cons c cs => simp

theorem waitPhraseIn_ne_empty {txt : String} (h : waitPhraseIn txt = true) : ¬(txt = "") := by
  intro he
  subst he
  rw [waitPhraseIn] at h
  rcases Bool.or_eq_true_iff.mp h with h1 | h2
  · rcases Bool.or_eq_true_iff.mp h1 with ha | hb
    · exact (hasSub_ne_nil ha (by decide)) rfl
    · exact (hasSub_ne_nil hb (by decide)) rfl
  · exact (hasSub_ne_nil h2 (by decide)) rfl

/-- C5: an event is classified as an input-wait signal whenever its
event-kind name carries the input/wait-request-required semantics, or its
extracted text, lowercased, contains one of the fixed waiting-for-user-input
phrasings; concretely, text "Waiting for user input to continue" classifies
as a wait signal and text "continuing work" does not. -/
theorem inputWait_classification :
    (∀ (evt e : JVal), unwrapStreamEvent evt = some e →
      typeSignalsWait e = true ∨ waitPhraseIn (strLower (extractText e)) = true →
      isInputWaitEvent evt = true)
    ∧ isInputWaitEvent (.vObj (jfields [("type", .vStr "system"),
        ("message", .vStr "Waiting for user input to continue")])) = true
    ∧ isInputWaitEvent (.vObj (jfields [("type", .vStr "assistant"),
        ("message", .vStr "continuing work")])) = false := by
  refine ⟨?_, by decide, by decide⟩
  intro evt e hu hcond
  rw [isInputWaitEvent, hu]
  rcases hcond with ht | hx
  · simp [ht]
  · have hne := waitPhraseIn_ne_empty hx
    simp [textSignalsWait, hne, hx]

/-- Witness for C5: the first (conditional) part applied at the
`user_input_required` event of the test suite. -/
theorem inputWait_classification_witness :
    isInputWaitEvent (.vObj (jfields [("type", .vStr "user_input_required")])) = true :=
  inputWait_classification.1 _ _ rfl (Or.inl (by decide))

/-! ## C6: session normalization -/

/-- C6: `normalizeSession` clamps a negative or non-integer `turn` to 0 and
keeps exactly the most recent `maxHistory` normalized history entries in
their original relative order; concretely, `{turn: -3, history: <30 items>}`
normalizes to turn 0 and the 20 most recent entries (items 10..29). -/
theorem normalizeSession_spec :
    (∀ (now : String) (maxH : Nat) (fs : JFields) (q : Rat),
      getField fs "turn" = some (.vNum q) → q < 0 ∨ q.den ≠ 1 →
      (normalizeSession now maxH (.vObj fs)).turn = 0)
    ∧ (∀ (now : String) (maxH : Nat) (v : JVal), 0 < maxH →
        (normalizeSession now maxH v).history =
          (normalizeHistory now (rawHistory v)).drop
            ((normalizeHistory now (rawHistory v)).length - maxH)
        ∧ (normalizeSession now maxH v).history.length =
            min maxH (normalizeHistory now (rawHistory v)).length)
    ∧ normalizeSession "t0" 20 (.vObj (jfields [("turn", .vNum (-3)),
        ("history", .vArr (jlist ((List.range 30).map (fun i =>
          JVal.vObj (jfields [("result", .vStr (toString i))])))))])) =
      { sessionId := "", turn := 0, summary := "",
        history := ((List.range 30).drop 10).map (fun i =>
          { at_ := "t0", result := toString i, cost := 0, turns := 0, input := "" }) } := by
  refine ⟨?_, ?_, by decide⟩
  · intro now maxH fs q hget hbad
    simp only [normalizeSession, hget]
    rcases hbad with hneg | hden
    · have : ¬(q.den = 1 ∧ 0 ≤ q) := fun ⟨_, hge⟩ => absurd hneg (not_lt.mpr hge)
      simp [this]
    · have : ¬(q.den = 1 ∧ 0 ≤ q) := fun ⟨hd, _⟩ => hden hd
      simp [this]
  · intro now maxH v hpos
    have hm : ¬(maxH = 0) := Nat.pos_iff_ne_zero.mp hpos
    cases v with
    | vObj fs =>
      constructor
      · simp [normalizeSession, rawHistory, jsSliceNeg, hm]
      · simp only [normalizeSession, rawHistory, jsSliceNeg, if_neg hm, List.length_drop]
        omega
    | vNull => simp [normalizeSession, rawHistory, jsSliceNeg, hm, normalizeHistory]
    | vBool b => simp [normalizeSession, rawHistory, jsSliceNeg, hm, normalizeHistory]
    | vNum q => simp [normalizeSession, rawHistory, jsSliceNeg, hm, normalizeHistory]
    | vStr s => simp [normalizeSession, rawHistory, jsSliceNeg, hm, normalizeHistory]
    | vArr xs => simp [normalizeSession, rawHistory, jsSliceNeg, hm, normalizeHistory]

/-- Witness for C6: both conditional parts applied at concrete inputs. -/
theorem normalizeSession_spec_witness :
    (normalizeSession "t" 20 (.vObj (jfields [("turn", .vNum (-3))]))).turn = 0
    ∧ (normalizeSession "t" 20 JVal.vNull).history.length =
        min 20 (normalizeHistory "t" (rawHistory JVal.vNull)).length :=
  ⟨normalizeSession_spec.1 "t" 20 _ (-3) rfl (Or.inl (by decide)),
   (normalizeSession_spec.2.1 "t" 20 JVal.vNull (by decide)).2⟩

/-! ## C7: prompt metadata rendering -/

/-- C7: the Metadata section of the assembled prompt never renders a
reserved key — every rendered metadata entry has a key outside
`KNOWN_KEYS` — and every unknown top-level key of the config is rendered
in the prompt as a `key: value` line. -/
theorem buildPrompt_metadata_spec :
    (∀ (c : Config) (kv : String × JVal), kv ∈ configMeta c →
      knownKeysList.contains kv.1 = false)
    ∧ (∀ (c : Config) (u k : String) (v : JVal), (k, v) ∈ c.extra →
        knownKeysList.contains k = false →
        ("  " ++ k ++ ": " ++ stringifyMeta v) ∈ buildPromptParts c u) := by
  constructor
  · intro c kv hm
    have h := (List.mem_filter.mp hm).2
    simpa using h
  · intro c u k v hext hk
    have hent : (k, v) ∈ configEntries c := by
      rw [configEntries]
      exact List.mem_append_left _ hext
    have hmeta : (k, v) ∈ configMeta c := by
      rw [configMeta]
      refine List.mem_filter.mpr ⟨hent, ?_⟩
      show (!(knownKeysList.contains k)) = true
      rw [hk]
      rfl
    have hne : (configMeta c).length ≠ 0 := by
      have := List.ne_nil_of_mem hmeta
      simpa [List.length_eq_zero] using this
    have hline : ("  " ++ k ++ ": " ++ stringifyMeta v) ∈
        (configMeta c).map (fun kv => "  " ++ kv.1 ++ ": " ++ stringifyMeta kv.2) :=
      List.mem_map_of_mem _ hmeta
    rw [buildPromptParts]
    apply List.mem_append_left
    apply List.mem_append_left
    apply List.mem_append_right
    show ("  " ++ k ++ ": " ++ stringifyMeta v) ∈
      (if (configMeta c).length ≠ 0 then
        ["", "Metadata:"]
          ++ (configMeta c).map (fun kv => "  " ++ kv.1 ++ ": " ++ stringifyMeta kv.2)
      else [])
    rw [if_pos hne]
    exact List.mem_append_right _ hline

/-- Witness for C7: the unknown key of `cfgWithMeta` is rendered. -/
theorem buildPrompt_metadata_witness :
    ("  " ++ "team" ++ ": " ++ stringifyMeta (.vStr "infra")) ∈
      buildPromptParts cfgWithMeta "go" :=
  buildPrompt_metadata_spec.2 cfgWithMeta "go" "team" (.vStr "infra")
    (List.mem_singleton.mpr rfl) (by decide)

/-! ## C3: continuation (resume) eligibility -/

/-- C3 counterexample: a project whose only prior turn has an empty result
text has a history entry that does not start with the error prefix, yet
`spawnAgent` does not pass `--resume` for it (the argv carries
`--session-id`), contradicting the claim's if-and-only-if as stated. -/
theorem resume_claim_counterexample :
    (∃ h ∈ cfgEmptyResult.session.history, strStarts h.result "error:" = false)
    ∧ hasSuccessfulTurn cfgEmptyResult = false
    ∧ "--session-id" ∈ spawnAgentArgs "acceptEdits" "" cfgEmptyResult "" "go"
    ∧ "--resume" ∉ spawnAgentArgs "acceptEdits" "" cfgEmptyResult "" "go" := by
  refine ⟨⟨{ at_ := "t", result := "", cost := 0, turns := 0, input := "x" }, ?_, ?_⟩, ?_, ?_, ?_⟩
  · decide
  · decide
  · decide
  · decide
  · decide

/-- C3 (amended): a turn is spawned as a resume (`--resume` with the stored
session id instead of `--session-id`) if and only if the history contains a
prior turn whose result text is non-empty and does not start with the error
prefix. -/
theorem resume_iff_successful_turn :
    ∀ (pm dm : String) (c : Config) (mo u : String),
      (hasSuccessfulTurn c = true ↔
        ∃ h ∈ c.session.history, h.result ≠ "" ∧ strStarts h.result "error:" = false)
      ∧ (hasSuccessfulTurn c = true →
          spawnAgentArgs pm dm c mo u =
            spawnAgentBase pm dm mo ++ ["--resume", c.session.sessionId, buildPrompt c u])
      ∧ (hasSuccessfulTurn c = false →
          spawnAgentArgs pm dm c mo u =
            spawnAgentBase pm dm mo ++ ["--session-id", c.session.sessionId, buildPrompt c u]) := by
  intro pm dm c mo u
  refine ⟨?_, ?_, ?_⟩
  · rw [hasSuccessfulTurn, hasSuccessfulTurnS, List.any_eq_true]
    constructor
    · rintro ⟨h, hm, hp⟩
      rw [Bool.and_eq_true] at hp
      refine ⟨h, hm, ?_, ?_⟩
      · exact of_decide_eq_true hp.1
      · simpa using hp.2
    · rintro ⟨h, hm, hne, hst⟩
      refine ⟨h, hm, ?_⟩
      rw [Bool.and_eq_true]
      exact ⟨decide_eq_true hne, by rw [hst]; rfl⟩
  · intro h
    rw [spawnAgentArgs, spawnAgentBase, h]
    simp
  · intro h
    rw [spawnAgentArgs, spawnAgentBase, h]
    simp

/-- Witness for C3: the amended theorem applied at a config with one
successful prior turn. -/
theorem resume_iff_successful_turn_witness :
    spawnAgentArgs "acceptEdits" "" cfgOkResult "" "go" =
      spawnAgentBase "acceptEdits" "" "" ++ ["--resume", cfgOkResult.session.sessionId,
        buildPrompt cfgOkResult "go"] :=
  (resume_iff_successful_turn "acceptEdits" "" cfgOkResult "" "go").2.1 (by decide)

/-! ## C1: externally requested stops -/

/-- C1: whenever a stop reason was pre-recorded before the agent process
exited, the close handler resolves with the distinguished stopped outcome
carrying that reason and zero cost and leaves the session untouched (no
turn increment, no history record); the REPL completion callback then also
leaves the session untouched for a stopped outcome and never re-dispatches
a loop turn. -/
theorem agentClose_stopped_spec :
    (∀ (sr : String) (ctx : CloseCtx) (s : Session), sr ≠ "" →
      agentClose sr ctx s =
        { result := "stopped: " ++ sr ++ signalSuffix ctx.signal, cost := 0, stopped := true,
          session := s, stopReasonAfter := "" })
    ∧ (∀ (p : Project) (r : String) (c : Rat) (q : List Nat) (tc : Rat)
        (now : String) (pc : Nat),
        (onAgentDone p r c true q tc now pc).proj.session = p.session
        ∧ (onAgentDone p r c true q tc now pc).respawn = none) := by
  constructor
  · intro sr ctx s h
    rw [agentClose, if_pos h]
  · intro p r c q tc now pc
    rw [onAgentDone]
    simp only [if_pos rfl]
    constructor
    · show (requeueDone (pushActivity _ now _) q (tc + c)).proj.session = p.session
      rw [requeueDone, pushActivity]
      split <;> rfl
    · show (requeueDone (pushActivity _ now _) q (tc + c)).respawn = none
      rw [requeueDone]

/-- Witness for C1: an externally killed process resolves stopped with the
recorded reason, zero cost and an unchanged session. -/
theorem agentClose_stopped_witness :
    agentClose "killed" closeCtxSample sessionSample =
      { result := "stopped: " ++ "killed" ++ signalSuffix closeCtxSample.signal, cost := 0,
        stopped := true, session := sessionSample, stopReasonAfter := "" } :=
  agentClose_stopped_spec.1 "killed" closeCtxSample sessionSample (by decide)

/-! ## Helper lemmas: slices and prefixes -/

theorem jsSliceNeg_concat_getLast {α : Type} (l : List α) (x : α) (n : Nat) :
    (jsSliceNeg (l ++ [x]) n).getLast? = some x := by
  rw [jsSliceNeg]
  by_cases h : n = 0
  · rw [if_pos h]
    exact List.getLast?_concat l
  · rw [if_neg h]
    have hk : (l ++ [x]).length - n ≤ l.length := by
      simp only [List.length_append, List.length_singleton]
      omega
    rw [List.drop_append_of_le_length hk]
    exact List.getLast?_concat _

theorem jsSliceNeg_is_drop {α : Type} (l : List α) (n : Nat) :
    ∃ k, jsSliceNeg l n = l.drop k := by
  rw [jsSliceNeg]
  by_cases h : n = 0
  · exact ⟨0, by rw [if_pos h, List.drop_zero]⟩
  · exact ⟨l.length - n, by rw [if_neg h]⟩

theorem strStarts_append (pre t : String) : strStarts (pre ++ t) pre = true := by
  rw [strStarts, String.data_append, List.isPrefixOf_iff_prefix]
  exact List.prefix_append pre.data t.data

theorem str_append_empty (s : String) : s ++ "" = s := String.append_empty s

/-! ## C2: spawn failure -/

/-- C2: when spawning the agent binary fails, the error handler resolves the
turn immediately as a (non-stopped) error outcome with zero cost; the close
event that Node then delivers (empty stdio, no pre-recorded stop reason)
runs the real-completion path, so the failed attempt increments the turn
counter and appends exactly one error-sentinel `TurnRecord` to the history —
unlike a stopped outcome, which appends nothing. -/
theorem spawnFailure_spec :
    ∀ (msg : String) (code : Option Int) (u now : String) (maxH : Nat) (s : Session),
      spawnErrorResolve msg = ("spawn error: " ++ msg, 0, false)
      ∧ ((agentClose "" (spawnFailCtx code u now maxH) s).stopped = false
        ∧ (agentClose "" (spawnFailCtx code u now maxH) s).cost = 0
        ∧ (agentClose "" (spawnFailCtx code u now maxH) s).result =
            "error: exit " ++ codeStr code ++ " — "
        ∧ strStarts (agentClose "" (spawnFailCtx code u now maxH) s).result "error:" = true
        ∧ (agentClose "" (spawnFailCtx code u now maxH) s).session.turn = s.turn + 1
        ∧ (agentClose "" (spawnFailCtx code u now maxH) s).session.history =
            jsSliceNeg (s.history ++
              [{ at_ := now, result := strTake ("error: exit " ++ codeStr code ++ " — ") 2000,
                 cost := 0, turns := 0, input := u }]) maxH
        ∧ (agentClose "" (spawnFailCtx code u now maxH) s).session.history.getLast? =
            some { at_ := now, result := strTake ("error: exit " ++ codeStr code ++ " — ") 2000,
                   cost := 0, turns := 0, input := u }) := by
  intro msg code u now maxH s
  have hres : closeResultFields (spawnFailCtx code u now maxH) s =
      ("error: exit " ++ codeStr code ++ " — ", 0, 0, s.sessionId) := by
    rw [closeResultFields]
    have hcond : ¬((spawnFailCtx code u now maxH).code = some 0
        ∧ strTrim (spawnFailCtx code u now maxH).stdout ≠ "") := by
      rintro ⟨-, hne⟩
      exact hne rfl
    rw [if_neg hcond]
    simp only [spawnFailCtx]
    rw [show strTrim "" = "" from rfl, show strTake "" 500 = "" from rfl]
    simp only [ne_eq, not_true_eq_false, if_false, reduceIte]
    rw [str_append_empty]
  have hclose : agentClose "" (spawnFailCtx code u now maxH) s =
      { result := "error: exit " ++ codeStr code ++ " — ", cost := 0, stopped := false
        session :=
          { sessionId := s.sessionId, turn := s.turn + 1, summary := s.summary
            history := jsSliceNeg (s.history ++
              [{ at_ := now, result := strTake ("error: exit " ++ codeStr code ++ " — ") 2000,
                 cost := 0, turns := 0, input := u }]) maxH }
        stopReasonAfter := "" } := by
    rw [agentClose]
    simp only [ne_eq, not_true_eq_false, if_false, reduceIte, hres]
    have hsum : ¬("error: exit " ++ codeStr code ++ " — " ≠ ""
        ∧ strStarts ("error: exit " ++ codeStr code ++ " — ") "error:" = false) := by
      rintro ⟨-, hfalse⟩
      have : strStarts ("error: exit " ++ codeStr code ++ " — ") "error:" = true := by
        have h1 : "error: exit " ++ codeStr code ++ " — " =
            "error:" ++ (" exit " ++ codeStr code ++ " — ") := by
          rw [← String.append_assoc, ← String.append_assoc]
          rfl
        rw [h1]
        exact strStarts_append _ _
      rw [this] at hfalse
      cases hfalse
    rw [if_neg hsum]
    rfl
  refine ⟨rfl, ?_, ?_, ?_, ?_, ?_, ?_, ?_⟩
  · rw [hclose]
  · rw [hclose]
  · rw [hclose]
  · rw [hclose]
    show strStarts ("error: exit " ++ codeStr code ++ " — ") "error:" = true
    have h1 : "error: exit " ++ codeStr code ++ " — " =
        "error:" ++ (" exit " ++ codeStr code ++ " — ") := by
      rw [← String.append_assoc, ← String.append_assoc]
      rfl
    rw [h1]
    exact strStarts_append _ _
  · rw [hclose]
  · rw [hclose]
  · rw [hclose]
    show (jsSliceNeg (s.history ++
        [{ at_ := now, result := strTake ("error: exit " ++ codeStr code ++ " — ") 2000,
           cost := 0, turns := 0, input := u }]) maxH).getLast? = _
    exact jsSliceNeg_concat_getLast _ _ _

/-! ## C8: progress routing, holding and buffer bound -/

theorem pushActivity_pendingStream (p : Project) (now msg : String) :
    (pushActivity p now msg).pendingStream = p.pendingStream := by
  rw [pushActivity]
  split <;> rfl

theorem pushActivity_holdStream (p : Project) (now msg : String) :
    (pushActivity p now msg).holdStream = p.holdStream := by
  rw [pushActivity]
  split <;> rfl

theorem pushActivity_activity (p : Project) (now msg : String) (hne : msg ≠ "") :
    (pushActivity p now msg).activity =
      (if (p.activity ++ [(now, msg)]).length > 400 then
        jsSliceNeg (p.activity ++ [(now, msg)]) 400
      else p.activity ++ [(now, msg)]) := by
  rw [pushActivity, if_neg hne]

theorem pushBufferedProgress_activity (p : Project) (msg : String) :
    (pushBufferedProgress p msg).activity = p.activity := by
  rw [pushBufferedProgress]
  split <;> rfl

theorem pushBufferedProgress_pendingStream (p : Project) (msg : String) (hne : msg ≠ "") :
    (pushBufferedProgress p msg).pendingStream =
      (if (p.pendingStream ++ [msg]).length > 200 then
        jsSliceNeg (p.pendingStream ++ [msg]) 200
      else p.pendingStream ++ [msg]) := by
  rw [pushBufferedProgress, if_neg hne]

theorem capped_concat_getLast {α : Type} (l : List α) (x : α) (cap : Nat) :
    (if (l ++ [x]).length > cap then jsSliceNeg (l ++ [x]) cap else l ++ [x]).getLast? =
      some x := by
  by_cases h : (l ++ [x]).length > cap
  · rw [if_pos h]
    exact jsSliceNeg_concat_getLast _ _ _
  · rw [if_neg h]
    exact List.getLast?_concat _

theorem capped_concat_is_drop {α : Type} (l : List α) (x : α) (cap : Nat) :
    ∃ k, (if (l ++ [x]).length > cap then jsSliceNeg (l ++ [x]) cap else l ++ [x]) =
      (l ++ [x]).drop k := by
  by_cases h : (l ++ [x]).length > cap
  · rw [if_pos h]
    exact jsSliceNeg_is_drop _ _
  · exact ⟨0, by rw [if_neg h, List.drop_zero]⟩

theorem capped_concat_le {α : Type} (l : List α) (x : α) (cap : Nat) (hcap : 0 < cap) :
    (if (l ++ [x]).length > cap then jsSliceNeg (l ++ [x]) cap else l ++ [x]).length ≤ cap := by
  by_cases h : (l ++ [x]).length > cap
  · rw [if_pos h, jsSliceNeg, if_neg (by omega : ¬(cap = 0)), List.length_drop]
    omega
  · rw [if_neg h]
    omega

/-- C8: every non-empty progress line routed through `emitProgress` is
appended to the project's activity log regardless of hold state (the
activity log keeps a most-recent suffix, so the new line is always its last
entry); while `holdStream` is true the line is buffered instead of printed,
and the pending buffer is a most-recent suffix of the appended buffer that
never exceeds 200 entries (oldest dropped first); while `holdStream` is
false the line prints live and the pending buffer is untouched. -/
theorem emitProgress_spec :
    ∀ (p : Project) (now msg : String), msg ≠ "" →
      ((emitProgress p now msg).1.activity.getLast? = some (now, msg)
      ∧ (∃ k, (emitProgress p now msg).1.activity = (p.activity ++ [(now, msg)]).drop k)
      ∧ (p.holdStream = true →
          (emitProgress p now msg).2 = false
          ∧ (emitProgress p now msg).1.pendingStream.getLast? = some msg
          ∧ (emitProgress p now msg).1.pendingStream.length ≤ 200
          ∧ ∃ k, (emitProgress p now msg).1.pendingStream =
              (p.pendingStream ++ [msg]).drop k)
      ∧ (p.holdStream = false →
          (emitProgress p now msg).2 = true
          ∧ (emitProgress p now msg).1.pendingStream = p.pendingStream)) := by
  intro p now msg hne
  rw [emitProgress, if_neg hne]
  by_cases hh : p.holdStream
  · rw [if_pos ((pushActivity_holdStream p now msg).trans hh)]
    simp only []
    refine ⟨?_, ?_, ?_, ?_⟩
    · rw [pushBufferedProgress_activity, pushActivity_activity p now msg hne]
      exact capped_concat_getLast _ _ _
    · rw [pushBufferedProgress_activity, pushActivity_activity p now msg hne]
      exact capped_concat_is_drop _ _ _
    · intro _
      refine ⟨trivial, ?_, ?_, ?_⟩
      · rw [pushBufferedProgress_pendingStream _ msg hne, pushActivity_pendingStream]
        exact capped_concat_getLast _ _ _
      · rw [pushBufferedProgress_pendingStream _ msg hne, pushActivity_pendingStream]
        exact capped_concat_le _ _ _ (by omega)
      · rw [pushBufferedProgress_pendingStream _ msg hne, pushActivity_pendingStream]
        exact capped_concat_is_drop _ _ _
    · intro hcontra
      rw [hh] at hcontra
      cases hcontra
  · have hh' : p.holdStream = false := eq_false_of_ne_true hh
    rw [if_neg (by rw [pushActivity_holdStream, hh']; exact Bool.false_ne_true)]
    simp only []
    refine ⟨?_, ?_, ?_, ?_⟩
    · rw [pushActivity_activity p now msg hne]
      exact capped_concat_getLast _ _ _
    · rw [pushActivity_activity p now msg hne]
      exact capped_concat_is_drop _ _ _
    · intro hcontra
      rw [hh'] at hcontra
      cases hcontra
    · intro _
      exact ⟨trivial, pushActivity_pendingStream p now msg⟩

/-- Witness for C8: a held line is buffered, logged and not printed. -/
theorem emitProgress_spec_witness :
    (emitProgress projSample "t3" "[agent] hi").1.activity.getLast? = some ("t3", "[agent] hi")
    ∧ (emitProgress projSample "t3" "[agent] hi").2 = false :=
  ⟨(emitProgress_spec projSample "t3" "[agent] hi" (by decide)).1,
   ((emitProgress_spec projSample "t3" "[agent] hi" (by decide)).2.2.1 (by decide)).1⟩

/-! ## C9: evolution of the turn counter -/

/-- C9 counterexample: reverting the last turn of a session with one
completed turn decreases `session.turn` (from 1 to 0), so the turn counter
does not only increase across the session operations. -/
theorem turn_monotone_counterexample :
    (revertSession (some "abc123 roundsman turn 1: ok") true sessionSample).2.turn
      < sessionSample.turn := by decide

/-- C9 (amended): a real (non-stopped) turn completion increments
`session.turn` by exactly one and a stopped completion leaves it unchanged,
so completions never decrease it; renormalizing a persisted session
preserves it; the two explicit exceptions move it down: a session reset
sets it to 0 and a successful revert decrements it by one, flooring at 0. -/
theorem turn_evolution_spec :
    (∀ (sr : String) (ctx : CloseCtx) (s : Session),
      (agentClose sr ctx s).session.turn = (if sr = "" then s.turn + 1 else s.turn)
      ∧ s.turn ≤ (agentClose sr ctx s).session.turn)
    ∧ (∀ freshId : String, (resetSession freshId).turn = 0)
    ∧ (∀ (lc : Option String) (ok : Bool) (s : Session),
        (revertSession lc ok s).2.turn = s.turn
        ∨ (revertSession lc ok s).2.turn = s.turn - 1)
    ∧ (∀ (now : String) (maxH : Nat) (s : Session),
        (normalizeSession now maxH (sessionJ s)).turn = s.turn) := by
  refine ⟨?_, fun _ => rfl, ?_, ?_⟩
  · intro sr ctx s
    by_cases h : sr = ""
    · subst h
      rw [agentClose]
      simp only [ne_eq, not_true_eq_false, if_false, reduceIte]
      refine ⟨trivial, ?_⟩
      show s.turn ≤ s.turn + 1
      omega
    · rw [agentClose, if_pos h, if_neg h]
      exact ⟨rfl, le_refl _⟩
  · intro lc ok s
    cases lc with
    | none =>
      rw [revertSession]
      exact Or.inl rfl
    | some msg =>
      rw [revertSession]
      split
      · exact Or.inl rfl
      · split
        · exact Or.inl rfl
        · split
          · exact Or.inr rfl
          · exact Or.inl rfl
  · intro now maxH s
    have hv : sessionJ s = JVal.vObj (JFields.cons "sessionId" (.vStr s.sessionId)
        (JFields.cons "turn" (.vNum (s.turn : Rat))
          (JFields.cons "summary" (.vStr s.summary)
            (JFields.cons "history" (.vArr (jlist (s.history.map turnRecordJ)))
              JFields.nil)))) := rfl
    have hg : getField (JFields.cons "sessionId" (.vStr s.sessionId)
        (JFields.cons "turn" (.vNum (s.turn : Rat))
          (JFields.cons "summary" (.vStr s.summary)
            (JFields.cons "history" (.vArr (jlist (s.history.map turnRecordJ)))
              JFields.nil)))) "turn" = some (JVal.vNum (s.turn : Rat)) := by
      rw [getField, if_neg (by decide : ¬("sessionId" = "turn")), getField,
        if_pos (rfl : "turn" = "turn")]
    rw [hv, normalizeSession]
    simp only [hg]
    rw [if_pos ⟨Rat.den_natCast s.turn, Nat.cast_nonneg s.turn⟩, Rat.num_natCast]
    exact Int.toNat_natCast s.turn

/-! ## C10: killProject -/

theorem killQueue_spec (pid : Nat) (queue : List Nat) :
    pid ∈ (if pid ∈ queue then queue else queue ++ [pid])
    ∧ (if pid ∈ queue then queue else queue ++ [pid]).count pid = max (queue.count pid) 1
    ∧ (pid ∈ queue → (if pid ∈ queue then queue else queue ++ [pid]) = queue)
    ∧ (pid ∉ queue → (if pid ∈ queue then queue else queue ++ [pid]) = queue ++ [pid]) := by
  by_cases hm : pid ∈ queue
  · rw [if_pos hm]
    have hpos : 1 ≤ queue.count pid := List.count_pos_iff.mpr hm
    refine ⟨hm, ?_, fun _ => rfl, fun hc => absurd hm hc⟩
    omega
  · rw [if_neg hm]
    have hzero : queue.count pid = 0 := List.count_eq_zero.mpr hm
    refine ⟨List.mem_append_right _ (List.mem_singleton.mpr rfl), ?_,
      fun hc => absurd hc hm, fun _ => rfl⟩
    rw [List.count_append, hzero]
    simp

/-- C10: with neither an agent process nor a watcher process, `killProject`
returns false and changes nothing (project and rotation queue are returned
exactly as given); when it does kill something it reports true, sets the
project idle, clears the snooze timer, and re-appends the project to the
queue only when absent — the queue never gains a duplicate entry. -/
theorem killProject_spec :
    ∀ (p : Project) (queue : List Nat) (why : String),
      (p.hasProc = false → p.hasWatchProc = false →
        killProject p queue why = (p, queue, false))
      ∧ (p.hasProc = true ∨ p.hasWatchProc = true →
          ((killProject p queue why).1.state = ProjState.idle
          ∧ (killProject p queue why).1.snoozeUntil = 0
          ∧ (killProject p queue why).2.2 = true
          ∧ p.id ∈ (killProject p queue why).2.1
          ∧ (killProject p queue why).2.1.count p.id = max (queue.count p.id) 1
          ∧ (p.id ∈ queue → (killProject p queue why).2.1 = queue)
          ∧ (p.id ∉ queue → (killProject p queue why).2.1 = queue ++ [p.id]))) := by
  intro p queue why
  constructor
  · intro h1 h2
    simp [killProject, stopWatcher, h1, h2]
  · intro hkill
    obtain ⟨hq1, hq2, hq3, hq4⟩ := killQueue_spec p.id queue
    cases hp : p.hasProc with
    | false =>
      have hw : p.hasWatchProc = true := by
        rcases hkill with h | h
        · rw [hp] at h
          cases h
        · exact h
      simp [killProject, stopWatcher, hp, hw]
      exact ⟨hq1, hq2⟩
    | true =>
      cases hw : p.hasWatchProc with
      | false =>
        simp [killProject, stopWatcher, hp, hw]
        exact ⟨hq1, hq2⟩
      | true =>
        simp [killProject, stopWatcher, hp, hw]
        exact ⟨hq1, hq2⟩

/-- Witness for C10: killing the sample working project reports true, goes
idle, clears the snooze timer and appends the project to the empty queue. -/
theorem killProject_spec_witness :
    (killProject projSample [] "requested").1.state = ProjState.idle
    ∧ (killProject projSample [] "requested").1.snoozeUntil = 0
    ∧ (killProject projSample [] "requested").2.1 = [] ++ [projSample.id] := by
  have h := (killProject_spec projSample [] "requested").2 (Or.inl (by decide))
  exact ⟨h.1, h.2.1, h.2.2.2.2.2.2 (by decide)⟩
